import Mathlib

/-!
# Verification of the live dictation pipeline (`src/record-live-v2.py`)

Shallow embedding of the segmenter, transcription worker, overlap
deduplication and transcript assembler of `record-live-v2.py`.
Text is modelled as `List Char` (Python strings indexed by code point);
session-relative times are modelled as exact rationals `ℚ`.
-/

/-- Python whitespace characters recognised by `str.split()` / `str.strip()`
(ASCII subset: space, tab, newline, carriage return, vertical tab, form feed). -/
def pyIsSpace (c : Char) : Bool :=
  c = ' ' || c = '\t' || c = '\n' || c = '\r' || c = '\x0b' || c = '\x0c'

/-- Helper for `splitWords`: accumulates the current word (reversed). -/
def splitWordsAux : List Char → List Char → List (List Char)
  | [], acc => if acc = [] then [] else [acc.reverse]
  | c :: cs, acc =>
    if pyIsSpace c then
      if acc = [] then splitWordsAux cs []
      else acc.reverse :: splitWordsAux cs []
    else splitWordsAux cs (c :: acc)

/-- Python `str.split()` with no argument: splits on runs of whitespace,
discarding empty tokens. -/
def splitWords (s : List Char) : List (List Char) :=
  splitWordsAux s []

/-- Python `str.lstrip()`: drop leading whitespace. -/
def lstrip (s : List Char) : List Char :=
  s.dropWhile pyIsSpace

/-- Python `str.rstrip()`: drop trailing whitespace. -/
def rstrip (s : List Char) : List Char :=
  (s.reverse.dropWhile pyIsSpace).reverse

/-- Python `str.strip()`: drop leading and trailing whitespace. -/
def pstrip (s : List Char) : List Char :=
  rstrip (lstrip s)

/-- Python `str.find`: index of the first occurrence of `pat` in `s`
(`none` models the `-1` of a failed search; `some 0` when `pat` is empty,
matching `s.find('') = 0`). -/
def findSub : List Char → List Char → Option Nat
  | s@(_ :: cs), pat =>
    if pat.isPrefixOf s then some 0 else (findSub cs pat).map (· + 1)
  | [], pat => if pat = [] then some 0 else none

/-- Segment type tag: RETURN marks a paragraph, '.' marks a sentence
(`mark_segment` argument `segment_type`). -/
inductive SegType where
  | paragraph
  | sentence
deriving DecidableEq, Repr

/-- One entry of `self.results` (keyed by segment index): the dict
`{'text': ..., 'start': segment['actual_start'], 'end': segment['end'],
'type': segment['type']}` written by `transcription_worker`. -/
structure FinalResult where
  text : List Char
  start : ℚ
  endT : ℚ
  type : SegType
deriving DecidableEq, Repr

/-- The `self.results` dict, as an association list keyed by segment index. -/
abbrev Results := List (Nat × FinalResult)

/-- Dict lookup `self.results[i]` / membership `i in self.results`. -/
def lookupIdx (i : Nat) : Results → Option FinalResult
  | [] => none
  | (k, v) :: rest => if k = i then some v else lookupIdx i rest

/-- Dict assignment `self.results[i] = v` (overwrites any previous binding). -/
def insertR (res : Results) (i : Nat) (v : FinalResult) : Results :=
  res.filter (fun p => p.1 ≠ i) ++ [(i, v)]

/-- The overlap-deduplication step of `transcribe_segment`
(`record-live-v2.py` lines 199–212), applied to the stripped whisper
output `full_text` of the segment with index `index`:
if `index > 0` and a result for `index - 1` exists and the previous text is
longer than 20 characters, build the probe phrase from the first 5
whitespace words of `full_text`; if the probe occurs in the previous text
and its first position `idx` in `full_text` itself is positive, keep only
`full_text[idx + len(probe):]` stripped. -/
def dedupText (index : Nat) (res : Results) (full0 : List Char) : List Char :=
  if index > 0 then
    match lookupIdx (index - 1) res with
    | some prev =>
      if prev.text.length > 20 then
        let words_to_check := (splitWords full0).take 5
        if words_to_check = [] then full0
        else
          let check_phrase := List.intercalate [' '] words_to_check
          if (findSub prev.text check_phrase).isSome then
            match findSub full0 check_phrase with
            | some idx =>
              if idx > 0 then pstrip (full0.drop (idx + check_phrase.length))
              else full0
            | none => full0
          else full0
      else full0
    | none => full0
  else full0

/-- A segment descriptor as built by `mark_segment`: the Python dict
`{'start', 'end', 'type', 'index', 'actual_start'}` (`end` renamed `endT`). -/
structure Segment where
  start : ℚ
  endT : ℚ
  type : SegType
  index : Nat
  actual_start : ℚ
deriving DecidableEq, Repr

/-- Embedding of `transcribe_segment` (lines 170–219): `ext i = false` models the audio
extraction for segment `i` failing (`extract_segment_audio` returning no
file), `wh i = none` models whisper failing or its JSON output missing, and
`wh i = some raw` models a successful transcription whose JSON `text` field
is `raw`.  On success the text is stripped and deduplicated against the
current results map; every failure path returns `none`. -/
def transcribe_segment (ext : Nat → Bool) (wh : Nat → Option (List Char))
    (res : Results) (seg : Segment) : Option (List Char) :=
  if ext seg.index then
    match wh seg.index with
    | some raw => some (dedupText seg.index res (pstrip raw))
    | none => none
  else none

/-- Overlap constant `self.overlap_seconds = 1.0`. -/
def overlap_seconds : ℚ := 1

/-- Mutable recorder state touched by `mark_segment`: the `recording` flag,
`last_segment_end`, the `segments` list and the contents of
`transcription_queue` (FIFO, head = oldest). -/
structure RecState where
  recording : Bool
  last_segment_end : ℚ
  segments : List Segment
  queue : List Segment
deriving DecidableEq, Repr

/-- Embedding of `mark_segment` (lines 69–103) at session-relative time
`current_time = time.time() - self.start_time`: if recording and
`current_time > last_segment_end + 0.5`, build a segment starting at
`max(0, last_segment_end - overlap_seconds)` with
`actual_start = last_segment_end`, `end = current_time` and
`index = len(segments)`, append it to `segments`, advance
`last_segment_end`, enqueue it, and return it; otherwise change nothing. -/
def mark_segment (s : RecState) (segment_type : SegType) (current_time : ℚ) :
    RecState × Option Segment :=
  if s.recording = false then (s, none)
  else if s.last_segment_end + 1/2 < current_time then
    let seg : Segment :=
      { start := max 0 (s.last_segment_end - overlap_seconds)
        endT := current_time
        type := segment_type
        index := s.segments.length
        actual_start := s.last_segment_end }
    ({ s with segments := s.segments ++ [seg]
              last_segment_end := current_time
              queue := s.queue ++ [seg] }, some seg)
  else (s, none)

/-- Recorder state right after `start_recording`: recording, no segments,
`last_segment_end = 0`, empty queue. -/
def initState : RecState :=
  { recording := true, last_segment_end := 0, segments := [], queue := [] }

/-- Run a whole sequence of `(type, time)` mark events through
`mark_segment`. -/
def runMarks (s : RecState) : List (SegType × ℚ) → RecState
  | [] => s
  | (ty, t) :: rest => runMarks (mark_segment s ty t).1 rest

/-- One body iteration of `transcription_worker` applied to a dequeued
segment (lines 225–237): transcribe it and, only if the text is truthy
(non-`None` and non-empty), record a `FinalResult` under the segment's
index; otherwise leave `results` untouched. -/
def workerStep (ext : Nat → Bool) (wh : Nat → Option (List Char))
    (res : Results) (seg : Segment) : Results :=
  match transcribe_segment ext wh res seg with
  | some text =>
    if text = [] then res
    else insertR res seg.index
      { text := text, start := seg.actual_start, endT := seg.endT
        type := seg.type }
  | none => res

/-- The worker's `while` guard (line 223):
`self.recording or not self.transcription_queue.empty()`. -/
def workerLoopContinues (recording : Bool) (q : List Segment) : Bool :=
  recording || !q.isEmpty

/-- State observed by the transcription worker loop. -/
structure WorkerState where
  recording : Bool
  queue : List Segment
  results : Results

/-- One iteration of the worker's `while` loop: terminate (returning the
results) when the guard fails; otherwise dequeue and process one segment,
or spin on `queue.Empty` when the queue is empty but recording is on. -/
def workerIter (ext : Nat → Bool) (wh : Nat → Option (List Char))
    (s : WorkerState) : WorkerState ⊕ Results :=
  if workerLoopContinues s.recording s.queue then
    match s.queue with
    | [] => Sum.inl s
    | seg :: rest =>
      Sum.inl { s with queue := rest
                       results := workerStep ext wh s.results seg }
  else Sum.inr s.results

/-- Iterate the worker loop at most `n` times. -/
def workerRun (ext : Nat → Bool) (wh : Nat → Option (List Char)) :
    Nat → WorkerState → WorkerState ⊕ Results
  | 0, s => Sum.inl s
  | n + 1, s =>
    match workerIter ext wh s with
    | Sum.inl s' => workerRun ext wh n s'
    | Sum.inr r => Sum.inr r

/-- Processing every queued segment in FIFO order (what the worker does
after `recording` goes false). -/
def drainWorker (ext : Nat → Bool) (wh : Nat → Option (List Char))
    (res : Results) : List Segment → Results
  | [] => res
  | seg :: rest => drainWorker ext wh (workerStep ext wh res seg) rest

/-- Python `f"{n:02d}"` for the integers produced by `format_time`:
zero-pad the decimal representation to at least two characters. -/
def pad2 (n : Int) : List Char :=
  let s := (toString n).toList
  if s.length < 2 then '0' :: s else s

/-- Embedding of `format_time` (lines 105–109): `seconds` to `MM:SS`, with
`mins = int(seconds // 60)` and `secs = int(seconds % 60)` — for the
nonnegative times of this pipeline both are floors. -/
def format_time (seconds : ℚ) : List Char :=
  let mins : Int := Int.floor (seconds / 60)
  let secs : Int := Int.floor seconds - 60 * mins
  pad2 mins ++ ':' :: pad2 secs

/-- Key iteration `sorted(self.results.keys())` (line 307). -/
def sortedKeys (res : Results) : List Nat :=
  List.insertionSort (· ≤ ·) (res.map Prod.fst)

/-- The parts contributed by one result `r` inside the loop of
`save_results` (lines 308–312): the line `f"[{format_time(r['start'])}]
{r['text']}"`, followed by an empty part when `r['type'] == 'paragraph'`. -/
def renderEntry (r : FinalResult) : List (List Char) :=
  (('[' :: format_time r.start) ++ (']' :: ' ' :: r.text)) ::
    (if r.type = SegType.paragraph then [[]] else [])

/-- The parts contributed by key `i`: `result = self.results[i]` then
`renderEntry` (a key of the dict always resolves; `none` never occurs when
`i` ranges over `sorted(self.results.keys())`). -/
def renderAt (res : Results) (i : Nat) : List (List Char) :=
  match lookupIdx i res with
  | some r => renderEntry r
  | none => []

/-- The `transcript_parts` list built by `save_results` (lines 306–313):
for each index in ascending order, the line `"[MM:SS] <text>"` stamped with
the result's `start` (= the segment's `actual_start`), followed by an empty
part when the result's type is `paragraph`. -/
def transcript_parts (res : Results) : List (List Char) :=
  (sortedKeys res).flatMap (renderAt res)

/-- Joining `full_transcript = "\n".join(transcript_parts)` (line 314). -/
def full_transcript (res : Results) : List Char :=
  List.intercalate ['\n'] (transcript_parts res)

/-- Outcome of the end of `run` (lines 376–380). -/
inductive RunOutcome where
  | saved (transcript : List Char)
  | nothingToSave
deriving DecidableEq, Repr

/-- End of `run` (lines 376–380): `save_results` builds and writes the
transcript only when `self.results` is non-empty; otherwise the user is
told there is nothing to save and no artifact is produced. -/
def finishSession (res : Results) : RunOutcome :=
  if res.isEmpty then RunOutcome.nothingToSave
  else RunOutcome.saved (full_transcript res)

/-- Overlap deduplication written from the spec's own words (amended with
the previous-text-length condition the code imposes): given segment i−1's
finalized text (when one exists), join the first 5 whitespace-delimited
words of the raw text into a probe phrase; exactly when the previous text is
longer than 20 characters, the probe occurs as a substring of it, and the
probe's first character position in the raw text itself is positive,
truncate to everything after the probe occurrence and strip; in every other
case return the text unmodified. -/
def dedupClaim (prevText : Option (List Char)) (full0 : List Char) : List Char :=
  match prevText with
  | some prevT =>
    if prevT.length > 20 then
      let probe := List.intercalate [' '] ((splitWords full0).take 5)
      match findSub full0 probe with
      | some pos =>
        if (findSub prevT probe).isSome ∧ 0 < pos then
          pstrip (full0.drop (pos + probe.length))
        else full0
      | none => full0
    else full0
  | none => full0

/-! ## Helper lemmas -/

/-- Searching for the empty pattern always succeeds at position 0,
matching Python `s.find('') == 0`. -/
theorem findSub_nil (s : List Char) : findSub s [] = some 0 := by
  cases s <;> simp [findSub, List.isPrefixOf]

/-- Accepting or rejecting a mark: a call to `mark_segment` either changes
nothing and returns no segment, or appends exactly one segment whose index
is the previous length of the segment list. -/
theorem mark_segment_cases (s : RecState) (ty : SegType) (t : ℚ) :
    ((mark_segment s ty t).1 = s ∧ (mark_segment s ty t).2 = none) ∨
    (∃ seg, (mark_segment s ty t).2 = some seg ∧
      (mark_segment s ty t).1.segments = s.segments ++ [seg] ∧
      (mark_segment s ty t).1.queue = s.queue ++ [seg] ∧
      seg.index = s.segments.length) := by
  unfold mark_segment
  by_cases hrec : s.recording = false
  · left; rw [if_pos hrec]; exact ⟨rfl, rfl⟩
  · rw [if_neg hrec]
    by_cases hacc : s.last_segment_end + 1/2 < t
    · rw [if_pos hacc]
      right
      exact ⟨_, rfl, rfl, rfl, rfl⟩
    · rw [if_neg hacc]
      left; exact ⟨rfl, rfl⟩

/-- The dense-index invariant is preserved by any single mark. -/
theorem runMarks_index_invariant (evs : List (SegType × ℚ)) :
    ∀ s : RecState,
      s.segments.map Segment.index = List.range s.segments.length →
      (runMarks s evs).segments.map Segment.index =
        List.range (runMarks s evs).segments.length := by
  induction evs with
  | nil => intro s h; exact h
  | cons ev rest ih =>
    intro s h
    obtain ⟨ty, t⟩ := ev
    show (runMarks (mark_segment s ty t).1 rest).segments.map Segment.index = _
    apply ih
    rcases mark_segment_cases s ty t with ⟨heq, -⟩ | ⟨seg, -, hseg, -, hidx⟩
    · rw [heq]; exact h
    · rw [hseg]
      simp only [List.map_append, List.map_cons, List.map_nil, h, hidx,
        List.length_append, List.length_cons, List.length_nil]
      rw [List.range_succ]

/-- C4: over every sequence of marks (accepted and dropped interleaved),
the segment indices are exactly `0, 1, 2, ...` — they start at 0, are
dense, are never reused, and each accepted mark appends exactly one segment
carrying the next index while a dropped mark changes nothing. -/
theorem C4_index_assignment (evs : List (SegType × ℚ)) :
    ((runMarks initState evs).segments.map Segment.index =
      List.range (runMarks initState evs).segments.length) ∧
    ∀ (s : RecState) (ty : SegType) (t : ℚ),
      ((mark_segment s ty t).1 = s ∧ (mark_segment s ty t).2 = none) ∨
      (∃ seg, (mark_segment s ty t).2 = some seg ∧
        (mark_segment s ty t).1.segments = s.segments ++ [seg] ∧
        seg.index = s.segments.length) := by
  constructor
  · exact runMarks_index_invariant evs initState rfl
  · intro s ty t
    rcases mark_segment_cases s ty t with h | ⟨seg, h1, h2, h3, h4⟩
    · exact Or.inl h
    · exact Or.inr ⟨seg, h1, h2, h4⟩

/-- C2: every accepted mark at time `t` (recording on, past the minimum
gap) creates a segment with `windowStart = max(0, previousContentEnd −
overlapDuration)`, `contentStart = previousContentEnd` and
`windowEnd = t`; in particular when `previousContentEnd = 0` (the very
first segment) the window starts at 0. -/
theorem C2_segment_construction (s : RecState) (ty : SegType) (t : ℚ)
    (hrec : s.recording = true) (hacc : s.last_segment_end + 1/2 < t) :
    ∃ seg, (mark_segment s ty t).2 = some seg ∧
      seg.start = max 0 (s.last_segment_end - overlap_seconds) ∧
      seg.actual_start = s.last_segment_end ∧
      seg.endT = t ∧
      (s.last_segment_end = 0 → seg.start = 0) := by
  unfold mark_segment
  rw [if_neg (by rw [hrec]; exact fun h => Bool.noConfusion h), if_pos hacc]
  refine ⟨_, rfl, rfl, rfl, rfl, ?_⟩
  intro h0
  show max 0 (s.last_segment_end - overlap_seconds) = 0
  rw [h0]
  norm_num [overlap_seconds]

/-- Witness for C2 at the initial state with a mark at t = 3. -/
theorem C2_segment_construction_witness :
    (initState.recording = true ∧ initState.last_segment_end + 1/2 < 3) ∧
    ∃ seg, (mark_segment initState SegType.paragraph 3).2 = some seg ∧
      seg.start = max 0 (initState.last_segment_end - overlap_seconds) ∧
      seg.actual_start = initState.last_segment_end ∧
      seg.endT = 3 ∧
      (initState.last_segment_end = 0 → seg.start = 0) :=
  ⟨⟨rfl, by norm_num [initState]⟩,
    C2_segment_construction initState SegType.paragraph 3 rfl
      (by norm_num [initState])⟩

/-- C3: a mark arriving at `t ≤ previousContentEnd + 0.5` is a complete
no-op: no segment is produced, nothing is enqueued, and the whole recorder
state (including `last_segment_end`, the segment list and hence the next
index) is unchanged. -/
theorem C3_mark_rejection (s : RecState) (ty : SegType) (t : ℚ)
    (h : t ≤ s.last_segment_end + 1/2) :
    mark_segment s ty t = (s, none) := by
  unfold mark_segment
  by_cases hrec : s.recording = false
  · rw [if_pos hrec]
  · rw [if_neg hrec, if_neg (not_lt.mpr h)]

/-- Witness for C3: a mark at t = 1/4 right after start is dropped. -/
theorem C3_mark_rejection_witness :
    ((1/4 : ℚ) ≤ initState.last_segment_end + 1/2) ∧
    mark_segment initState SegType.sentence (1/4) = (initState, none) :=
  ⟨by norm_num [initState],
    C3_mark_rejection initState SegType.sentence (1/4)
      (by norm_num [initState])⟩

/-- C8: the save step signals "nothing to save" exactly when the results
map is empty, and an empty results map never yields a saved transcript
artifact (so `save_results` is never reached). -/
theorem C8_empty_session (res : Results) :
    (finishSession res = RunOutcome.nothingToSave ↔ res = []) ∧
    ∀ t, finishSession [] ≠ RunOutcome.saved t := by
  constructor
  · unfold finishSession
    by_cases h : res.isEmpty
    · rw [if_pos h]
      simp [List.isEmpty_iff.mp h]
    · rw [if_neg h]
      constructor
      · intro hc; exact absurd hc (by simp)
      · intro hnil; exact absurd (by rw [hnil]; rfl) h
  · intro t hc
    exact RunOutcome.noConfusion hc

/-- C5: the worker's loop guard fails only with the session inactive and
the queue empty, so the worker never terminates while work remains; and
once recording is off, running the loop processes every queued segment in
FIFO order (`drainWorker`) and then terminates within `|queue| + 1`
iterations, returning the accumulated results. -/
theorem C5_worker_drain (ext : Nat → Bool) (wh : Nat → Option (List Char))
    (res : Results) (q : List Segment) :
    (∀ s : WorkerState, ∀ r : Results,
      workerIter ext wh s = Sum.inr r →
        s.queue = [] ∧ s.recording = false ∧ r = s.results) ∧
    workerRun ext wh (q.length + 1) ⟨false, q, res⟩ =
      Sum.inr (drainWorker ext wh res q) ∧
    drainWorker ext wh res q = List.foldl (workerStep ext wh) res q := by
  refine ⟨?_, ?_, ?_⟩
  · rintro ⟨rec, qu, rs⟩ r h
    cases rec <;> cases qu <;> simp_all [workerIter, workerLoopContinues]
  · induction q generalizing res with
    | nil => rfl
    | cons seg rest ih =>
      have h1 : workerRun ext wh ((seg :: rest).length + 1) ⟨false, seg :: rest, res⟩ =
          workerRun ext wh (rest.length + 1) ⟨false, rest, workerStep ext wh res seg⟩ := rfl
      rw [h1]
      exact ih (workerStep ext wh res seg)
  · induction q generalizing res with
    | nil => rfl
    | cons seg rest ih => exact ih (workerStep ext wh res seg)

/-- Witness for C5: at a stopped state with an empty queue the loop guard
fails and the worker returns its results. -/
theorem C5_worker_drain_witness :
    workerIter (fun _ => false) (fun _ => none) ⟨false, [], []⟩ =
      Sum.inr ([] : Results) ∧
    (([] : List Segment) = [] ∧ false = false ∧ ([] : Results) = []) :=
  ⟨rfl, (C5_worker_drain (fun _ => false) (fun _ => none) [] []).1
    ⟨false, [], []⟩ [] rfl⟩

/-- C6: if extraction or transcription fails for a dequeued segment, the
segment yields no text, the results map is left completely unchanged (in
particular no entry appears under the segment's index), and the worker
moves straight on to the rest of the queue — the failed segment is never
retried and the drain continues. -/
theorem C6_failure_skips_segment (ext : Nat → Bool)
    (wh : Nat → Option (List Char)) (res : Results) (seg : Segment)
    (rest : List Segment)
    (h : ext seg.index = false ∨ wh seg.index = none) :
    transcribe_segment ext wh res seg = none ∧
    workerStep ext wh res seg = res ∧
    lookupIdx seg.index (workerStep ext wh res seg) = lookupIdx seg.index res ∧
    drainWorker ext wh res (seg :: rest) = drainWorker ext wh res rest := by
  have ht : transcribe_segment ext wh res seg = none := by
    unfold transcribe_segment
    rcases h with h | h
    · simp [h]
    · rw [h]
      split <;> rfl
  have hw : workerStep ext wh res seg = res := by
    unfold workerStep
    rw [ht]
  refine ⟨ht, hw, by rw [hw], ?_⟩
  show drainWorker ext wh (workerStep ext wh res seg) rest = _
  rw [hw]

/-- Witness for C6: a segment whose extraction fails is skipped. -/
theorem C6_failure_skips_segment_witness :
    ((fun _ : Nat => false) 0 = false ∨
      (fun _ : Nat => (none : Option (List Char))) 0 = none) ∧
    (transcribe_segment (fun _ => false) (fun _ => none) []
        ⟨0, 3, SegType.paragraph, 0, 0⟩ = none ∧
      workerStep (fun _ => false) (fun _ => none) []
        ⟨0, 3, SegType.paragraph, 0, 0⟩ = [] ∧
      lookupIdx 0 (workerStep (fun _ => false) (fun _ => none) []
        ⟨0, 3, SegType.paragraph, 0, 0⟩) = lookupIdx 0 [] ∧
      drainWorker (fun _ => false) (fun _ => none) []
          [⟨0, 3, SegType.paragraph, 0, 0⟩, ⟨3, 6, SegType.sentence, 1, 3⟩] =
        drainWorker (fun _ => false) (fun _ => none) []
          [⟨3, 6, SegType.sentence, 1, 3⟩]) :=
  ⟨Or.inl rfl,
    C6_failure_skips_segment (fun _ => false) (fun _ => none) []
      ⟨0, 3, SegType.paragraph, 0, 0⟩ [⟨3, 6, SegType.sentence, 1, 3⟩]
      (Or.inl rfl)⟩

/-- Equation for `workerStep` when transcription succeeds. -/
theorem workerStep_eq_of_some (ext : Nat → Bool)
    (wh : Nat → Option (List Char)) (res : Results) (seg : Segment)
    (text : List Char) (h : transcribe_segment ext wh res seg = some text) :
    workerStep ext wh res seg =
      if text = [] then res
      else insertR res seg.index
        { text := text, start := seg.actual_start, endT := seg.endT
          type := seg.type } := by
  unfold workerStep
  rw [h]

/-- Equation for `workerStep` when transcription fails. -/
theorem workerStep_eq_of_none (ext : Nat → Bool)
    (wh : Nat → Option (List Char)) (res : Results) (seg : Segment)
    (h : transcribe_segment ext wh res seg = none) :
    workerStep ext wh res seg = res := by
  unfold workerStep
  rw [h]

/-- Stepping preserves "every stored text is non-empty": the worker's
`if text:` guard refuses to store falsy (empty) text. -/
theorem workerStep_text_ne_nil (ext : Nat → Bool)
    (wh : Nat → Option (List Char)) (res : Results) (seg : Segment)
    (hres : ∀ p ∈ res, p.2.text ≠ []) :
    ∀ p ∈ workerStep ext wh res seg, p.2.text ≠ [] := by
  intro p hp
  cases ht : transcribe_segment ext wh res seg with
  | none => rw [workerStep_eq_of_none ext wh res seg ht] at hp; exact hres p hp
  | some text =>
    rw [workerStep_eq_of_some ext wh res seg text ht] at hp
    by_cases hnil : text = []
    · rw [if_pos hnil] at hp; exact hres p hp
    · rw [if_neg hnil] at hp
      unfold insertR at hp
      rcases List.mem_append.mp hp with hm | hm
      · exact hres p (List.mem_of_mem_filter hm)
      · rcases List.mem_singleton.mp hm with rfl
        simpa using hnil

/-- Draining any queue preserves "every stored text is non-empty". -/
theorem drainWorker_text_ne_nil (ext : Nat → Bool)
    (wh : Nat → Option (List Char)) :
    ∀ (q : List Segment) (res : Results), (∀ p ∈ res, p.2.text ≠ []) →
      ∀ p ∈ drainWorker ext wh res q, p.2.text ≠ []
  | [], _, hres => hres
  | seg :: rest, res, hres =>
    drainWorker_text_ne_nil ext wh rest _
      (workerStep_text_ne_nil ext wh res seg hres)

/-- C9 (implicit): a segment whose transcription step succeeds but yields
empty text (e.g. whisper produced only whitespace, or deduplication
truncated everything) creates no `FinalResult` entry — the map is unchanged
exactly as on failure — and consequently every entry of the results map
after draining any queue has non-empty text. -/
theorem C9_empty_text_dropped (ext : Nat → Bool)
    (wh : Nat → Option (List Char)) (res : Results) (q : List Segment)
    (hres : ∀ p ∈ res, p.2.text ≠ []) :
    (∀ seg, transcribe_segment ext wh res seg = some [] →
      workerStep ext wh res seg = res) ∧
    (∀ p ∈ drainWorker ext wh res q, p.2.text ≠ []) := by
  constructor
  · intro seg h
    rw [workerStep_eq_of_some ext wh res seg [] h, if_pos rfl]
  · exact drainWorker_text_ne_nil ext wh q res hres

/-- Witness for C9: whisper returns pure whitespace for the one queued
segment, the stripped text is empty, and nothing is stored. -/
theorem C9_empty_text_dropped_witness :
    (∀ p ∈ ([] : Results), p.2.text ≠ []) ∧
    ((∀ seg, transcribe_segment (fun _ => true) (fun _ => some "   ".toList)
        [] seg = some [] →
        workerStep (fun _ => true) (fun _ => some "   ".toList) [] seg = []) ∧
      (∀ p ∈ drainWorker (fun _ => true) (fun _ => some "   ".toList) []
          [⟨0, 3, SegType.paragraph, 0, 0⟩], p.2.text ≠ [])) :=
  ⟨by simp,
    C9_empty_text_dropped (fun _ => true) (fun _ => some "   ".toList) []
      [⟨0, 3, SegType.paragraph, 0, 0⟩] (by simp)⟩

/-- Joining an empty word list yields the empty phrase. -/
theorem intercalate_nil_words :
    List.intercalate ([' '] : List Char) ([] : List (List Char)) = [] := rfl

/-- The code's deduplication agrees with the claim-side description
`dedupClaim` (which carries the 20-character condition). -/
theorem dedupText_eq_dedupClaim (index : Nat) (res : Results)
    (full0 : List Char) :
    dedupText index res full0 =
      dedupClaim
        (if 0 < index then (lookupIdx (index - 1) res).map FinalResult.text
         else none) full0 := by
  simp only [dedupText, dedupClaim]
  by_cases hi : 0 < index
  · simp only [gt_iff_lt, hi, if_true]
    cases hl : lookupIdx (index - 1) res with
    | none => rfl
    | some prev =>
      simp only [Option.map_some']
      by_cases hlen : prev.text.length > 20
      · simp only [gt_iff_lt, hlen, if_true]
        by_cases hw : (splitWords full0).take 5 = []
        · simp only [hw, if_true, intercalate_nil_words, findSub_nil]
          simp
        · simp only [hw, if_false]
          cases hf : findSub full0
              (List.intercalate [' '] ((splitWords full0).take 5)) with
          | none =>
            by_cases hp : (findSub prev.text
                (List.intercalate [' '] ((splitWords full0).take 5))).isSome
            · simp [hp, hf]
            · simp [hp, hf]
          | some idx =>
            by_cases hp : (findSub prev.text
                (List.intercalate [' '] ((splitWords full0).take 5))).isSome
            · by_cases hpos : 0 < idx
              · simp [hp, hf, hpos]
              · simp [hp, hf, hpos]
            · simp [hp, hf]
      · simp [hlen]
  · simp [hi]

/-- C1 (amended): the code's overlap deduplication coincides exactly with
the claim's description amended by the extra requirement — present in the
code at line 203 but absent from the claim — that segment i−1's finalized
text be longer than 20 characters.  The previous text handed to the
claim-side algorithm is the one the code consults: the entry at index i−1
when `i > 0` and such an entry exists, nothing otherwise; in every case not
selected by the three conditions the text passes through unmodified. -/
theorem C1_dedup_refinement (index : Nat) (res : Results) (full0 : List Char) :
    dedupText index res full0 =
      dedupClaim
        (if 0 < index then (lookupIdx (index - 1) res).map FinalResult.text
         else none) full0 :=
  dedupText_eq_dedupClaim index res full0

/-- Counterexample to C1 as stated ("no further condition on segment i−1's
text"): segment 0 is finalized as `"z a b c d e"` (11 characters) and
segment 1's raw text is `"a  b c d e and a b c d e!"` (note the double
space).  The probe `"a b c d e"` occurs in the previous text and its first
position in segment 1's own text is 15 > 0, so the claim mandates
truncation to `"!"`; but the code, which additionally requires
`len(prev_text) > 20`, returns the text unmodified. -/
theorem C1_counterexample :
    (findSub ("z a b c d e".toList)
      (List.intercalate [' ']
        ((splitWords ("a  b c d e and a b c d e!".toList)).take 5))).isSome
        = true ∧
    findSub ("a  b c d e and a b c d e!".toList)
      (List.intercalate [' ']
        ((splitWords ("a  b c d e and a b c d e!".toList)).take 5)) =
        some 15 ∧
    pstrip (("a  b c d e and a b c d e!".toList).drop
      (15 + (List.intercalate [' ']
        ((splitWords ("a  b c d e and a b c d e!".toList)).take 5)).length)) =
        ['!'] ∧
    dedupText 1 [(0, ⟨"z a b c d e".toList, 0, 3, SegType.paragraph⟩)]
      ("a  b c d e and a b c d e!".toList) =
      "a  b c d e and a b c d e!".toList ∧
    "a  b c d e and a b c d e!".toList ≠ ['!'] := by
  decide

/-- If the pattern starts the string, Python `find` returns 0. -/
theorem findSub_of_isPrefixOf (s pat : List Char)
    (h : pat.isPrefixOf s = true) : findSub s pat = some 0 := by
  cases s with
  | nil =>
    cases pat with
    | nil => rfl
    | cons a as => simp [List.isPrefixOf] at h
  | cons c cs =>
    unfold findSub
    rw [if_pos h]

/-- C10 (implicit): when the probe phrase — the first 5 whitespace words of
the raw text joined by single spaces — is a prefix of the raw text itself
(which holds exactly when those words are separated by single spaces and
the text has no leading whitespace), the probe's first position in the text
is 0, so deduplication returns the text unchanged no matter what the
previous segment's finalized text contains. -/
theorem C10_dedup_inert (index : Nat) (res : Results) (full0 : List Char)
    (h : (List.intercalate [' ']
      ((splitWords full0).take 5)).isPrefixOf full0 = true) :
    dedupText index res full0 = full0 := by
  rw [dedupText_eq_dedupClaim]
  cases hp : (if 0 < index then (lookupIdx (index - 1) res).map FinalResult.text
      else none) with
  | none => rfl
  | some prevT =>
    simp only [dedupClaim]
    by_cases hlen : prevT.length > 20
    · simp only [gt_iff_lt, hlen, if_true, findSub_of_isPrefixOf full0 _ h]
      simp
    · simp [hlen]

/-- Witness for C10: a normally spaced text is untouched even though its
first five words occur verbatim (at position > 0) inside a long previous
finalized text. -/
theorem C10_dedup_inert_witness :
    ((List.intercalate [' ']
      ((splitWords ("hello world this is fine today".toList)).take 5)).isPrefixOf
        ("hello world this is fine today".toList) = true) ∧
    dedupText 1
      [(0, ⟨"say hello world this is fine indeed".toList, 0, 3,
        SegType.paragraph⟩)]
      ("hello world this is fine today".toList) =
      "hello world this is fine today".toList :=
  ⟨by decide,
    C10_dedup_inert 1
      [(0, ⟨"say hello world this is fine indeed".toList, 0, 3,
        SegType.paragraph⟩)]
      ("hello world this is fine today".toList) (by decide)⟩

/-! ## Dict-lookup and sorting lemmas for the assembler -/

/-- A successful lookup pinpoints a member of the association list. -/
theorem mem_of_lookupIdx_eq_some (i : Nat) (v : FinalResult) :
    ∀ res : Results, lookupIdx i res = some v → (i, v) ∈ res := by
  intro res
  induction res with
  | nil => intro h; exact absurd h (by rw [lookupIdx]; exact Option.noConfusion)
  | cons p rest ih =>
    obtain ⟨k, w⟩ := p
    intro h
    rw [lookupIdx] at h
    by_cases hk : k = i
    · rw [if_pos hk] at h
      subst hk
      rw [Option.some.injEq] at h
      subst h
      exact List.mem_cons_self _ _
    · rw [if_neg hk] at h
      exact List.mem_cons_of_mem _ (ih h)

/-- Looking up a key bound in a list with distinct keys finds exactly the
bound value. -/
theorem lookupIdx_eq_some_of_mem (i : Nat) (v : FinalResult) :
    ∀ res : Results, (i, v) ∈ res → (res.map Prod.fst).Nodup →
      lookupIdx i res = some v := by
  intro res
  induction res with
  | nil => intro h _; exact absurd h (List.not_mem_nil _)
  | cons p rest ih =>
    obtain ⟨k, w⟩ := p
    intro hmem hnd
    rw [List.map_cons, List.nodup_cons] at hnd
    rcases List.mem_cons.mp hmem with heq | hmem'
    · have h1 : k = i := (congrArg Prod.fst heq).symm
      have h2 : v = w := congrArg Prod.snd heq
      rw [lookupIdx, if_pos h1, h2]
    · have hki : ¬ k = i := by
        intro hk
        apply hnd.1
        rw [hk]
        exact List.mem_map.mpr ⟨(i, v), hmem', rfl⟩
      rw [lookupIdx, if_neg hki]
      exact ih hmem' hnd.2

/-- The lookup misses exactly when the key is absent. -/
theorem lookupIdx_eq_none_iff (i : Nat) :
    ∀ res : Results, lookupIdx i res = none ↔ i ∉ res.map Prod.fst := by
  intro res
  induction res with
  | nil => simp [lookupIdx]
  | cons p rest ih =>
    obtain ⟨k, w⟩ := p
    rw [lookupIdx]
    by_cases hk : k = i
    · simp [hk]
    · rw [if_neg hk, ih, List.map_cons]
      simp only [List.mem_cons, not_or]
      constructor
      · intro h; exact ⟨fun hik => hk hik.symm, h⟩
      · intro h; exact h.2

/-- Permuting an association list with distinct keys does not change any
lookup (Python dicts with the same contents agree on every access). -/
theorem lookupIdx_perm (i : Nat) (res res' : Results) (h : res.Perm res')
    (hnd : (res.map Prod.fst).Nodup) :
    lookupIdx i res = lookupIdx i res' := by
  have hnd' : (res'.map Prod.fst).Nodup := (h.map Prod.fst).nodup hnd
  cases hl : lookupIdx i res with
  | some v =>
    exact (lookupIdx_eq_some_of_mem i v res'
      (h.mem_iff.mp (mem_of_lookupIdx_eq_some i v res hl)) hnd').symm
  | none =>
    cases hl' : lookupIdx i res' with
    | none => rfl
    | some v =>
      have hm : (i, v) ∈ res := h.mem_iff.mpr (mem_of_lookupIdx_eq_some i v res' hl')
      exact absurd (List.mem_map_of_mem Prod.fst hm)
        ((lookupIdx_eq_none_iff i res).mp hl)

/-- The sorted key list is a permutation of the key list. -/
theorem sortedKeys_perm (res : Results) :
    (sortedKeys res).Perm (res.map Prod.fst) :=
  List.perm_insertionSort _ _

/-- The sorted key list is sorted. -/
theorem sortedKeys_sorted (res : Results) :
    List.Sorted (· ≤ ·) (sortedKeys res) :=
  List.sorted_insertionSort _ _

/-- Two permuted results maps produce the same sorted key list. -/
theorem sortedKeys_eq_of_perm (res res' : Results) (h : res.Perm res') :
    sortedKeys res = sortedKeys res' :=
  List.eq_of_perm_of_sorted
    ((sortedKeys_perm res).trans ((h.map Prod.fst).trans
      (sortedKeys_perm res').symm))
    (sortedKeys_sorted res) (sortedKeys_sorted res')

/-- Reading every key of an association list with distinct keys back
through the lookup reproduces the list itself. -/
theorem filterMap_lookup_self :
    ∀ res : Results, (res.map Prod.fst).Nodup →
      (res.map Prod.fst).filterMap
        (fun i => (lookupIdx i res).map (fun r => (i, r))) = res := by
  intro res
  induction res with
  | nil => intro _; rfl
  | cons p rest ih =>
    obtain ⟨k, w⟩ := p
    intro hnd
    rw [List.map_cons, List.nodup_cons] at hnd
    have hk : lookupIdx k ((k, w) :: rest) = some w := by
      rw [lookupIdx, if_pos rfl]
    rw [List.map_cons, List.filterMap_cons, hk]
    simp only [Option.map_some']
    have hcong : ∀ i ∈ rest.map Prod.fst,
        (lookupIdx i ((k, w) :: rest)).map (fun r => (i, r)) =
        (lookupIdx i rest).map (fun r => (i, r)) := by
      intro i hi
      have hki : ¬ k = i := fun hk' => hnd.1 (hk' ▸ hi)
      rw [lookupIdx, if_neg hki]
    rw [List.filterMap_congr hcong, ih hnd.2]

/-- Mapping `Prod.fst` over the looked-up entries gives back the key list,
provided every key occurs in the map. -/
theorem filterMap_lookup_map_fst (res : Results) :
    ∀ ks : List Nat, (∀ i ∈ ks, i ∈ res.map Prod.fst) →
      (ks.filterMap
        (fun i => (lookupIdx i res).map (fun r => (i, r)))).map Prod.fst =
        ks := by
  intro ks
  induction ks with
  | nil => intro _; rfl
  | cons i ks ih =>
    intro h
    have hi : i ∈ res.map Prod.fst := h i (List.mem_cons_self _ _)
    obtain ⟨v, hv⟩ : ∃ v, lookupIdx i res = some v := by
      cases hl : lookupIdx i res with
      | none => exact absurd ((lookupIdx_eq_none_iff i res).mp hl) (not_not.mpr hi)
      | some v => exact ⟨v, rfl⟩
    rw [List.filterMap_cons, hv]
    simp only [Option.map_some', List.map_cons]
    rw [ih (fun j hj => h j (List.mem_cons_of_mem _ hj))]

/-- The ascending (index, result) entry list that the assembler's loop
walks over. -/
def entriesOf (res : Results) : List (Nat × FinalResult) :=
  (sortedKeys res).filterMap (fun i => (lookupIdx i res).map (fun r => (i, r)))

/-- Equation for `renderAt` on a present key. -/
theorem renderAt_eq_some (res : Results) (i : Nat) (v : FinalResult)
    (h : lookupIdx i res = some v) : renderAt res i = renderEntry v := by
  unfold renderAt
  rw [h]

/-- Equation for `renderAt` on an absent key. -/
theorem renderAt_eq_none (res : Results) (i : Nat)
    (h : lookupIdx i res = none) : renderAt res i = [] := by
  unfold renderAt
  rw [h]

/-- Walking keys and looking each one up is the same as walking the
looked-up entry list. -/
theorem flatMap_renderAt_eq (res : Results) :
    ∀ ks : List Nat,
      ks.flatMap (renderAt res) =
        (ks.filterMap
          (fun i => (lookupIdx i res).map (fun r => (i, r)))).flatMap
          (fun p => renderEntry p.2) := by
  intro ks
  induction ks with
  | nil => rfl
  | cons i ks ih =>
    rw [List.flatMap_cons, List.filterMap_cons]
    cases hl : lookupIdx i res with
    | none =>
      rw [renderAt_eq_none res i hl]
      simp only [Option.map_none', List.nil_append]
      exact ih
    | some v =>
      rw [renderAt_eq_some res i v hl]
      simp only [Option.map_some', List.flatMap_cons]
      rw [ih]

/-- Permuted results maps with distinct keys assemble to the same parts
list (in particular the write order into the dict is irrelevant). -/
theorem transcript_parts_perm (res res' : Results) (h : res'.Perm res)
    (hnd : (res.map Prod.fst).Nodup) :
    transcript_parts res' = transcript_parts res := by
  unfold transcript_parts
  rw [sortedKeys_eq_of_perm res' res h]
  apply List.flatMap_congr
  intro i _
  unfold renderAt
  rw [lookupIdx_perm i res res' h.symm hnd]

/-- C7: for every non-empty results map with distinct indices, the
assembled parts list is exactly the walk of an entry list that is a
permutation of the map's contents sorted strictly ascending by index, each
entry contributing the line `"[" ++ MM:SS ++ "] " ++ text` (timestamp from
the entry's `start`, the segment's contentStart) followed by a blank part
exactly when its type is paragraph; and the output is independent of the
order in which entries were written into the map. -/
theorem C7_assembler_output (res : Results)
    (hnd : (res.map Prod.fst).Nodup) (hne : res ≠ []) :
    ∃ entries : List (Nat × FinalResult),
      entries.Perm res ∧
      entries ≠ [] ∧
      entries.Pairwise (fun p q => p.1 < q.1) ∧
      transcript_parts res = entries.flatMap (fun p =>
        (('[' :: format_time p.2.start) ++ (']' :: ' ' :: p.2.text)) ::
          (if p.2.type = SegType.paragraph then [[]] else [])) ∧
      (∀ res' : Results, res'.Perm res →
        transcript_parts res' = transcript_parts res) := by
  have hperm : (entriesOf res).Perm res := by
    have h1 := List.Perm.filterMap
      (fun i => (lookupIdx i res).map (fun r => (i, r))) (sortedKeys_perm res)
    rw [filterMap_lookup_self res hnd] at h1
    exact h1
  have hfst : (entriesOf res).map Prod.fst = sortedKeys res :=
    filterMap_lookup_map_fst res (sortedKeys res)
      (fun i hi => (sortedKeys_perm res).mem_iff.mp hi)
  refine ⟨entriesOf res, hperm, ?_, ?_, ?_, ?_⟩
  · intro hnil
    rw [hnil] at hperm
    exact hne hperm.symm.eq_nil
  · have hnodup : (sortedKeys res).Nodup := (sortedKeys_perm res).symm.nodup hnd
    have hlt : List.Sorted (· < ·) (sortedKeys res) :=
      (sortedKeys_sorted res).lt_of_le hnodup
    rw [← hfst] at hlt
    exact List.pairwise_map.mp hlt
  · exact flatMap_renderAt_eq res (sortedKeys res)
  · intro res' h
    exact transcript_parts_perm res res' h hnd

/-- Witness for C7 on a two-entry map written in descending index order. -/
theorem C7_assembler_output_witness :
    ((([(1, ⟨"world".toList, 6, 9, SegType.sentence⟩),
        (0, ⟨"hello".toList, 0, 3, SegType.paragraph⟩)] : Results).map
          Prod.fst).Nodup ∧
      ([(1, ⟨"world".toList, 6, 9, SegType.sentence⟩),
        (0, ⟨"hello".toList, 0, 3, SegType.paragraph⟩)] : Results) ≠ []) ∧
    ∃ entries : List (Nat × FinalResult),
      entries.Perm
        [(1, ⟨"world".toList, 6, 9, SegType.sentence⟩),
         (0, ⟨"hello".toList, 0, 3, SegType.paragraph⟩)] ∧
      entries ≠ [] ∧
      entries.Pairwise (fun p q => p.1 < q.1) ∧
      transcript_parts
        [(1, ⟨"world".toList, 6, 9, SegType.sentence⟩),
         (0, ⟨"hello".toList, 0, 3, SegType.paragraph⟩)] =
        entries.flatMap (fun p =>
          (('[' :: format_time p.2.start) ++ (']' :: ' ' :: p.2.text)) ::
            (if p.2.type = SegType.paragraph then [[]] else [])) ∧
      (∀ res' : Results,
        res'.Perm
          [(1, ⟨"world".toList, 6, 9, SegType.sentence⟩),
           (0, ⟨"hello".toList, 0, 3, SegType.paragraph⟩)] →
        transcript_parts res' =
          transcript_parts
            [(1, ⟨"world".toList, 6, 9, SegType.sentence⟩),
             (0, ⟨"hello".toList, 0, 3, SegType.paragraph⟩)]) :=
  ⟨⟨by decide, by simp⟩,
    C7_assembler_output
      [(1, ⟨"world".toList, 6, 9, SegType.sentence⟩),
       (0, ⟨"hello".toList, 0, 3, SegType.paragraph⟩)]
      (by decide) (by simp)⟩
